import Mathlib

/-!
Verification of the design-patterns repository against its specification.

Each section shallowly embeds one source file. Stateful TypeScript classes
become explicit state passing: an object is represented by the record of its
private fields, a method by a function from the old state (plus arguments)
to the new state together with any observable output (console messages,
invocation order). Object references are represented by natural-number
identifiers where identity matters.
-/

namespace Observer

/-!
Embedding of src/behavioral/observer.ts, class Messenger.

The private field of Messenger is the array of subscribers. Subscribers are
compared by object identity in the source, so they are modelled as natural
numbers. The methods:

  addSubscriber(subscriber)    { this.subscribers.push(subscriber); }
  removeSubscriber(subscriber) { this.subscribers =
                                   this.subscribers.filter(s => s !== subscriber); }
  emitEvent(event)             { this.subscribers.forEach(s => s.receiveEvent(event)); }

emitEvent returns the sequence of receiveEvent invocations it performs,
in order, as (subscriber, event) pairs.
-/

def addSubscriber (subscribers : List Nat) (s : Nat) : List Nat :=
  subscribers ++ [s]

def removeSubscriber (subscribers : List Nat) (s : Nat) : List Nat :=
  subscribers.filter (fun x => x ≠ s)

def emitEvent (subscribers : List Nat) (event : String) : List (Nat × String) :=
  subscribers.map (fun s => (s, event))

theorem foldl_addSubscriber (subs : List Nat) (init : List Nat) :
    subs.foldl addSubscriber init = init ++ subs := by
  induction subs generalizing init with
  | nil => simp
  | cons s rest ih =>
      simp only [List.foldl_cons, ih, addSubscriber]
      simp

end Observer

/-- Claim C1: for every sequence of addSubscriber calls with pairwise distinct
subscribers and no removals, a single emitEvent invokes each registered
subscriber exactly once, in the order in which they were subscribed: the
invocation list is exactly the subscription sequence paired with the event. -/
theorem observer_publish_each_once_in_order (subs : List Nat) (event : String)
    (hnd : subs.Nodup) :
    Observer.emitEvent (subs.foldl Observer.addSubscriber []) event
        = subs.map (fun s => (s, event)) ∧
    ∀ s ∈ subs,
      ((Observer.emitEvent (subs.foldl Observer.addSubscriber []) event).map
        Prod.fst).count s = 1 := by
  have hreg : subs.foldl Observer.addSubscriber [] = subs := by
    simpa using Observer.foldl_addSubscriber subs []
  constructor
  · rw [hreg]; rfl
  · intro s hs
    rw [hreg]
    have : (Observer.emitEvent subs event).map Prod.fst = subs := by
      simp [Observer.emitEvent, Function.comp_def]
    rw [this]
    exact List.count_eq_one_of_mem hnd hs

/-- Witness for C1 at the concrete subscription sequence [3, 5]. -/
theorem observer_publish_each_once_in_order_witness :
    Observer.emitEvent ([3, 5].foldl Observer.addSubscriber []) "e"
        = [3, 5].map (fun s => (s, "e")) ∧
    ∀ s ∈ [3, 5],
      ((Observer.emitEvent ([3, 5].foldl Observer.addSubscriber []) "e").map
        Prod.fst).count s = 1 :=
  observer_publish_each_once_in_order [3, 5] "e" (by decide)

/-- Claim C4 counterexample: addSubscriber does not have idempotent set
semantics. With subscriber 0 already present in the registry [0], adding it
again changes the registry to [0, 0], in which 0 appears twice. -/
theorem observer_subscribe_not_idempotent :
    0 ∈ Observer.addSubscriber [] 0 ∧
    Observer.addSubscriber (Observer.addSubscriber [] 0) 0
        ≠ Observer.addSubscriber [] 0 ∧
    (Observer.addSubscriber (Observer.addSubscriber [] 0) 0).count 0 = 2 := by
  decide

/-- Claim C4 amended: addSubscriber has unconditional append semantics, not
set semantics. Adding a subscriber, present or not, appends it to the end of
the registry and increases its occurrence count by one, so a subscriber
subscribed repeatedly appears repeatedly. -/
theorem observer_subscribe_appends (l : List Nat) (s : Nat) :
    Observer.addSubscriber l s = l ++ [s] ∧
    (Observer.addSubscriber l s).count s = l.count s + 1 := by
  refine ⟨rfl, ?_⟩
  simp [Observer.addSubscriber]

/-- Claim C7: removing a subscriber that is not present in the registry is a
no-op: the subscriber list is left exactly unchanged, same elements in the
same order. -/
theorem observer_unsubscribe_absent_noop (l : List Nat) (s : Nat) (h : s ∉ l) :
    Observer.removeSubscriber l s = l := by
  unfold Observer.removeSubscriber
  rw [List.filter_eq_self]
  intro x hx
  simp only [ne_eq, decide_eq_true_eq]
  intro hxs
  exact h (hxs ▸ hx)

/-- Witness for C7: subscriber 0 is absent from [1, 2] and removing it leaves
the registry unchanged. -/
theorem observer_unsubscribe_absent_noop_witness :
    Observer.removeSubscriber [1, 2] 0 = [1, 2] :=
  observer_unsubscribe_absent_noop [1, 2] 0 (by decide)

namespace Observer

/-!
Reentrancy model for emitEvent, still from src/behavioral/observer.ts.

emitEvent runs this.subscribers.forEach(s => s.receiveEvent(event)). A
receiveEvent callback may itself call addSubscriber or removeSubscriber on
the messenger. JavaScript semantics of this code:

  * forEach captures the array object this.subscribers and its length at
    call start, and visits indices 0 .. length-1 of that array object;
    elements appended after the call starts are not visited;
  * addSubscriber pushes onto the current this.subscribers array; while no
    removal has happened, that is still the very array forEach iterates;
  * removeSubscriber assigns a fresh filtered array to this.subscribers,
    leaving the iterated array object untouched from then on.

EmitState carries the iterated array object (arr), the current value of
this.subscribers (cur), whether they are still the same object (aliased),
and the receiveEvent invocations performed so far (received). A subscriber
behaviour assigns to each subscriber the registry calls its receiveEvent
makes when it receives the event.
-/

inductive RegOp where
  | add (s : Nat)
  | remove (s : Nat)

structure EmitState where
  arr : List Nat
  cur : List Nat
  aliased : Bool
  received : List Nat

def applyOp (st : EmitState) (op : RegOp) : EmitState :=
  match op with
  | .add s =>
      { st with cur := st.cur ++ [s],
                arr := if st.aliased then st.arr ++ [s] else st.arr }
  | .remove s =>
      { st with cur := st.cur.filter (fun x => x ≠ s), aliased := false }

def applyOps (st : EmitState) (ops : List RegOp) : EmitState :=
  ops.foldl applyOp st

def emitAux (beh : Nat → List RegOp) : Nat → Nat → EmitState → EmitState
  | 0, _, st => st
  | fuel + 1, k, st =>
      match st.arr[k]? with
      | some s =>
          emitAux beh fuel (k + 1)
            (applyOps { st with received := st.received ++ [s] } (beh s))
      | none => st

def emitEventReentrant (beh : Nat → List RegOp) (subs : List Nat) : EmitState :=
  emitAux beh subs.length 0 { arr := subs, cur := subs, aliased := true, received := [] }

theorem applyOp_arr_prefix (st : EmitState) (op : RegOp) :
    st.arr <+: (applyOp st op).arr ∧ (applyOp st op).received = st.received := by
  cases op with
  | add s =>
      constructor
      · by_cases h : st.aliased = true <;> simp [applyOp, h]
      · rfl
  | remove s => exact ⟨List.prefix_refl _, rfl⟩

theorem applyOps_arr_prefix (ops : List RegOp) (st : EmitState) :
    st.arr <+: (applyOps st ops).arr ∧ (applyOps st ops).received = st.received := by
  induction ops generalizing st with
  | nil => exact ⟨List.prefix_refl _, rfl⟩
  | cons op rest ih =>
      have h1 := applyOp_arr_prefix st op
      have h2 := ih (applyOp st op)
      refine ⟨h1.1.trans h2.1, ?_⟩
      have hstep : applyOps st (op :: rest) = applyOps (applyOp st op) rest := rfl
      rw [hstep, h2.2, h1.2]

theorem prefix_getElem? {l₁ l₂ : List Nat} (h : l₁ <+: l₂) {k : Nat}
    (hk : k < l₁.length) : l₂[k]? = l₁[k]? := by
  obtain ⟨t, rfl⟩ := h
  rw [List.getElem?_append, if_pos hk]

theorem emitAux_received (beh : Nat → List RegOp) (subs : List Nat) :
    ∀ fuel k st, subs <+: st.arr → k + fuel ≤ subs.length →
      (emitAux beh fuel k st).received = st.received ++ (subs.drop k).take fuel := by
  intro fuel
  induction fuel with
  | zero => intro k st _ _; simp [emitAux]
  | succ fuel ih =>
      intro k st hpre hle
      have hk : k < subs.length := by omega
      have harr : st.arr[k]? = some subs[k] := by
        rw [prefix_getElem? hpre hk]
        exact List.getElem?_eq_getElem hk
      rw [emitAux, harr]
      set st1 := applyOps { st with received := st.received ++ [subs[k]] } (beh subs[k]) with hst1
      have hps := applyOps_arr_prefix (beh subs[k]) { st with received := st.received ++ [subs[k]] }
      have hpre1 : subs <+: st1.arr := hpre.trans hps.1
      have hrec1 : st1.received = st.received ++ [subs[k]] := hps.2
      rw [ih (k + 1) st1 hpre1 (by omega), hrec1]
      rw [List.drop_eq_getElem_cons hk, List.take_succ_cons, List.append_assoc]
      rfl

end Observer

/-- Claim C5: emitEvent has snapshot semantics with respect to reentrant
registry mutation. For every starting subscriber list and every behaviour of
the receive callbacks (each may add or remove subscribers mid-publish), the
receiveEvent invocations of one emitEvent call are exactly the subscribers
present at call start, in order: subscribers added during the call do not
receive the in-flight event, and every subscriber present at the start does. -/
theorem observer_publish_snapshot (beh : Nat → List Observer.RegOp) (subs : List Nat) :
    (Observer.emitEventReentrant beh subs).received = subs := by
  have h := Observer.emitAux_received beh subs subs.length 0
    { arr := subs, cur := subs, aliased := true, received := [] }
    (List.prefix_refl _) (by omega)
  simpa using h

namespace Mediator

/-!
Embedding of the Mediator source file (src/unnamed/part_000).

FormMediator.notify dispatches dynamically on the property name
"handle" ++ event. The only two such methods on the mediator are
handleCheckboxMarked and handleReset, so the lookup succeeds exactly for the
events "CheckboxMarked" and "Reset" (case-sensitive) and otherwise takes the
console.log("Unhandled event!") branch without touching any state.

The mediated components carry one private flag each: ResetButton.disabled
and Checkbox.marked. Each method returns the new state together with the
console messages it prints.
-/

structure FormState where
  buttonDisabled : Bool
  checkboxMarked : Bool
deriving DecidableEq

def handleCheckboxMarked (st : FormState) : FormState × List String :=
  ({ st with buttonDisabled := false },
   ["Mediator received CheckboxMarked event!", "Enabling reset button..."])

def handleReset (st : FormState) : FormState × List String :=
  ({ st with checkboxMarked := false },
   ["Mediator received Reset event!", "Clearing checkbox..."])

def notify (event : String) (st : FormState) : FormState × List String :=
  if event = "CheckboxMarked" then handleCheckboxMarked st
  else if event = "Reset" then handleReset st
  else (st, ["Unhandled event!"])

end Mediator

/-- Claim C2: dispatching an event name with no registered handler is a
non-fatal no-op: notify returns normally with exactly the "Unhandled event!"
message and leaves the mediated component state unchanged. -/
theorem mediator_unhandled_event_noop (event : String) (st : Mediator.FormState)
    (h1 : event ≠ "CheckboxMarked") (h2 : event ≠ "Reset") :
    Mediator.notify event st = (st, ["Unhandled event!"]) := by
  simp [Mediator.notify, h1, h2]

/-- Witness for C2: the event name SomethingElse has no handler and notify
leaves the form state unchanged while reporting the unhandled-event message. -/
theorem mediator_unhandled_event_noop_witness :
    Mediator.notify "SomethingElse" ⟨true, false⟩
        = (⟨true, false⟩, ["Unhandled event!"]) :=
  mediator_unhandled_event_noop "SomethingElse" ⟨true, false⟩ (by decide) (by decide)

namespace Chain

/-!
Embedding of src/behavioral/chain-of-responsibility.ts.

A chain of handler objects wired head-to-tail by setNext is represented as
the list of handler kinds from the head onward. handleRequest on a handler
runs its subclass-specific processing, then handleRequestPropagation:

  if (this.nextHandler && this.shouldForwardRequest(params)) {
    return this.nextHandler.handleRequest(params);
  }

Because of short-circuit evaluation, shouldForwardRequest (and the console
messages the AuthHandler version prints) runs only when a next handler
exists. The three concrete subclasses:

  * AuthHandler: no processing of its own; shouldForwardRequest returns
    whether params contains "authorized" and logs the forwarding or
    stopping message;
  * DatabaseHandler: handleRequest logs the save message when params
    contains "save to database", then propagates; shouldForwardRequest is
    always true;
  * AlertHandler: handleRequest logs the alert message when params contains
    "alert user", then propagates; shouldForwardRequest is always false.

handleRequest returns the list of handlers whose handleRequest ran, in
order, together with the observable processing effects, in order.
-/

inductive HKind where
  | auth
  | database
  | alert
deriving DecidableEq

inductive ChainEffect where
  | forwardAuth
  | stopAuth
  | saveToDatabase
  | alertUser
deriving DecidableEq

def shouldForwardRequest (h : HKind) (params : List String) : Bool × List ChainEffect :=
  match h with
  | .auth =>
      if params.contains "authorized" then (true, [.forwardAuth])
      else (false, [.stopAuth])
  | .database => (true, [])
  | .alert => (false, [])

def preProcess (h : HKind) (params : List String) : List ChainEffect :=
  match h with
  | .auth => []
  | .database => if params.contains "save to database" then [.saveToDatabase] else []
  | .alert => if params.contains "alert user" then [.alertUser] else []

def handleRequest : List HKind → List String → List HKind × List ChainEffect
  | [], _ => ([], [])
  | h :: rest, params =>
      let pre := preProcess h params
      match rest with
      | [] => ([h], pre)
      | h2 :: rest2 =>
          let gate := shouldForwardRequest h params
          if gate.1 then
            let r := handleRequest (h2 :: rest2) params
            (h :: r.1, pre ++ gate.2 ++ r.2)
          else ([h], pre ++ gate.2)

end Chain

/-- Claim C3: in the three-link chain auth, database, alert, a request whose
params contain the authorized, save and alert keywords runs all three links
(the auth gate forwards, the database link saves, the alert link alerts); a
request whose params contain "unauthorized" and not "authorized" runs only
the auth link, which halts propagation, so the database and alert links are
never invoked. -/
theorem chain_three_links (p q : List String)
    (hp1 : p.contains "authorized" = true)
    (hp2 : p.contains "save to database" = true)
    (hp3 : p.contains "alert user" = true)
    (hq1 : q.contains "unauthorized" = true)
    (hq2 : q.contains "authorized" = false) :
    Chain.handleRequest [.auth, .database, .alert] p
        = ([.auth, .database, .alert],
           [.forwardAuth, .saveToDatabase, .alertUser]) ∧
    Chain.handleRequest [.auth, .database, .alert] q
        = ([.auth], [.stopAuth]) := by
  have hp1m : "authorized" ∈ p := by simpa using hp1
  have hp2m : "save to database" ∈ p := by simpa using hp2
  have hp3m : "alert user" ∈ p := by simpa using hp3
  have hq2m : "authorized" ∉ q := by simpa using hq2
  constructor
  · simp [Chain.handleRequest, Chain.preProcess, Chain.shouldForwardRequest,
      hp1m, hp2m, hp3m]
  · simp [Chain.handleRequest, Chain.preProcess, Chain.shouldForwardRequest, hq2m]

/-- Witness for C3 at the two request param lists used by the app. -/
theorem chain_three_links_witness :
    Chain.handleRequest [.auth, .database, .alert]
        ["authorized", "save to database", "alert user"]
        = ([.auth, .database, .alert],
           [.forwardAuth, .saveToDatabase, .alertUser]) ∧
    Chain.handleRequest [.auth, .database, .alert]
        ["unauthorized", "save to database"]
        = ([.auth], [.stopAuth]) :=
  chain_three_links ["authorized", "save to database", "alert user"]
    ["unauthorized", "save to database"]
    (by decide) (by decide) (by decide) (by decide) (by decide)

namespace Chain

/-!
Pointer-level model of the abstract Handler class from
src/behavioral/chain-of-responsibility.ts, for the acyclicity claim.

Handlers are identified by natural-number indices. The wiring produced by
the setNext calls is a function next : index to optional successor index;
fwd gives the value of shouldForwardRequest at each handler for the fixed
request params. runChain returns the indices of the handlers whose
handleRequest runs, in order, starting from a given head, following

  if (this.nextHandler && this.shouldForwardRequest(params)) {
    return this.nextHandler.handleRequest(params);
  }

The fuel argument bounds the recursion depth; the theorems show that with
the links wired strictly forward below N, fuel N is already exact: any
larger fuel yields the same traversal.
-/

def runChain (next : Nat → Option Nat) (fwd : Nat → Bool) : Nat → Nat → List Nat
  | 0, _ => []
  | fuel + 1, i =>
      i :: (match next i with
            | some j => if fwd i then runChain next fwd fuel j else []
            | none => [])

theorem runChain_chain_lt (next : Nat → Option Nat) (fwd : Nat → Bool)
    (hf : ∀ i j, next i = some j → i < j) :
    ∀ fuel i, List.Chain' (fun a b => a < b) (runChain next fwd fuel i) ∧
      ∀ x ∈ runChain next fwd fuel i, i ≤ x := by
  intro fuel
  induction fuel with
  | zero => intro i; simp [runChain]
  | succ fuel ih =>
      intro i
      rw [runChain]
      rcases hn : next i with _ | j
      · simp
      · by_cases hfw : fwd i = true
        · simp only [hn, hfw, if_true]
          have hij := hf i j hn
          obtain ⟨ihc, ihm⟩ := ih j
          constructor
          · rw [List.chain'_cons']
            refine ⟨?_, ihc⟩
            intro y hy
            have hym : y ∈ runChain next fwd fuel j :=
              List.mem_of_mem_head? hy
            exact lt_of_lt_of_le hij (ihm y hym)
          · intro x hx
            rcases List.mem_cons.mp hx with rfl | hx2
            · exact le_refl x
            · exact le_of_lt (lt_of_lt_of_le hij (ihm x hx2))
        · simp [hn, hfw]
  
theorem runChain_length_le (next : Nat → Option Nat) (fwd : Nat → Bool) :
    ∀ fuel i, (runChain next fwd fuel i).length ≤ fuel := by
  intro fuel
  induction fuel with
  | zero => intro i; simp [runChain]
  | succ fuel ih =>
      intro i
      rw [runChain]
      rcases next i with _ | j
      · simp
      · by_cases hfw : fwd i = true
        · simp only [hfw, if_true, List.length_cons]
          exact Nat.succ_le_succ (ih j)
        · simp [hfw]

theorem runChain_fuel_step (N : Nat) (next : Nat → Option Nat) (fwd : Nat → Bool)
    (hf : ∀ i j, next i = some j → i < j)
    (hb : ∀ i j, next i = some j → j < N) :
    ∀ fuel i, i < N → N - i ≤ fuel →
      runChain next fwd (fuel + 1) i = runChain next fwd fuel i := by
  intro fuel
  induction fuel with
  | zero => intro i hi hle; omega
  | succ fuel ih =>
      intro i hi hle
      rw [runChain, runChain]
      rcases hn : next i with _ | j
      · rfl
      · by_cases hfw : fwd i = true
        · simp only [hfw, if_true]
          have hij := hf i j hn
          have hjN := hb i j hn
          rw [ih j hjN (by omega)]
        · simp [hfw]

theorem runChain_fuel_stable (N : Nat) (next : Nat → Option Nat) (fwd : Nat → Bool)
    (hf : ∀ i j, next i = some j → i < j)
    (hb : ∀ i j, next i = some j → j < N)
    (head : Nat) (hh : head < N) :
    ∀ m, runChain next fwd (N + m) head = runChain next fwd N head := by
  intro m
  induction m with
  | zero => rfl
  | succ m ih =>
      have := runChain_fuel_step N next fwd hf hb (N + m) head hh (by omega)
      calc runChain next fwd (N + (m + 1)) head
          = runChain next fwd (N + m) head := this
        _ = runChain next fwd N head := ih

end Chain

/-- Claim C6: for every chain of N handler links wired strictly forward by
setNext (every successor index is strictly larger, and all links lie below
N), handleRequest from any head visits at most N links, in strictly
increasing order, never visiting the same link twice, and the traversal is
already complete at recursion depth N: any extra fuel m changes nothing, so
the traversal terminates with no cycles. -/
theorem chain_forward_wiring_acyclic (N : Nat) (next : Nat → Option Nat)
    (fwd : Nat → Bool) (head m : Nat)
    (hf : ∀ i j, next i = some j → i < j)
    (hb : ∀ i j, next i = some j → j < N)
    (hh : head < N) :
    (Chain.runChain next fwd N head).length ≤ N ∧
    List.Chain' (fun a b => a < b) (Chain.runChain next fwd N head) ∧
    (Chain.runChain next fwd N head).Nodup ∧
    Chain.runChain next fwd (N + m) head = Chain.runChain next fwd N head := by
  have hchain := (Chain.runChain_chain_lt next fwd hf N head).1
  refine ⟨Chain.runChain_length_le next fwd N head, hchain, ?_,
    Chain.runChain_fuel_stable N next fwd hf hb head hh m⟩
  have hpw : (Chain.runChain next fwd N head).Pairwise (fun a b => a < b) :=
    List.chain'_iff_pairwise.mp hchain
  exact hpw.imp Nat.ne_of_lt

namespace Chain

/-- Concrete three-link wiring used by the app: link 0 forwards to link 1,
link 1 to link 2, link 2 is the tail. -/
def appNext : Nat → Option Nat
  | 0 => some 1
  | 1 => some 2
  | _ => none

theorem appNext_strict_forward : ∀ i j, appNext i = some j → i < j := by
  intro i j h
  match i with
  | 0 => simp [appNext] at h; omega
  | 1 => simp [appNext] at h; omega
  | n + 2 => simp [appNext] at h

theorem appNext_bounded : ∀ i j, appNext i = some j → j < 3 := by
  intro i j h
  match i with
  | 0 => simp [appNext] at h; omega
  | 1 => simp [appNext] at h; omega
  | n + 2 => simp [appNext] at h

end Chain

/-- Witness for C6 at the concrete three-link wiring of the app, always
forwarding, starting from the head, with two units of extra fuel. -/
theorem chain_forward_wiring_acyclic_witness :
    (Chain.runChain Chain.appNext (fun _ => true) 3 0).length ≤ 3 ∧
    List.Chain' (fun a b => a < b) (Chain.runChain Chain.appNext (fun _ => true) 3 0) ∧
    (Chain.runChain Chain.appNext (fun _ => true) 3 0).Nodup ∧
    Chain.runChain Chain.appNext (fun _ => true) (3 + 2) 0
        = Chain.runChain Chain.appNext (fun _ => true) 3 0 :=
  chain_forward_wiring_acyclic 3 Chain.appNext (fun _ => true) 0 2
    Chain.appNext_strict_forward Chain.appNext_bounded (by decide)

namespace Composite

/-!
Embedding of src/structural/composite.ts.

A component tree is either a LeafComponent or a ContainerComponent with its
ordered children array. getTotalCost:

  * LeafComponent: return this.cost;
  * ContainerComponent: let childrenCost = 0;
    this.children.forEach(child => childrenCost += child.getTotalCost());
    return this.cost + childrenCost;

addChild pushes the child onto the children array (and is the inherited
no-op on leaves). Parent pointers are bookkeeping only and play no role in
getTotalCost.
-/

inductive TreeComponent where
  | leaf (cost : Int)
  | container (cost : Int) (children : List TreeComponent)

mutual

def getTotalCost : TreeComponent → Int
  | .leaf cost => cost
  | .container cost children => cost + childrenCost children

def childrenCost : List TreeComponent → Int
  | [] => 0
  | child :: rest => getTotalCost child + childrenCost rest

end

def addChild (parent child : TreeComponent) : TreeComponent :=
  match parent with
  | .leaf cost => .leaf cost
  | .container cost children => .container cost (children ++ [child])

theorem childrenCost_eq_sum (children : List TreeComponent) :
    childrenCost children = (children.map getTotalCost).sum := by
  induction children with
  | nil => rfl
  | cons child rest ih => rw [childrenCost, ih, List.map_cons, List.sum_cons]

/-- Tree built by the app: a package of cost 15 containing an item of cost
10 and a package of cost 7 that contains items of cost 5 and 3, assembled
through the same addChild calls the app makes. -/
def appTree : TreeComponent :=
  addChild (addChild (.container 15 []) (.leaf 10))
    (addChild (addChild (.container 7 []) (.leaf 5)) (.leaf 3))

end Composite

/-- Claim C9: getTotalCost on a leaf returns exactly its own cost, and on a
container returns exactly its own cost plus the sum of getTotalCost over its
current children, recursively; on the tree the app builds this yields
15 + 10 + (7 + 5 + 3) = 40. -/
theorem composite_total_cost :
    (∀ cost : Int, Composite.getTotalCost (.leaf cost) = cost) ∧
    (∀ (cost : Int) (children : List Composite.TreeComponent),
      Composite.getTotalCost (.container cost children)
          = cost + (children.map Composite.getTotalCost).sum) ∧
    Composite.getTotalCost Composite.appTree = 40 := by
  refine ⟨fun cost => rfl, fun cost children => ?_, ?_⟩
  · rw [Composite.getTotalCost, Composite.childrenCost_eq_sum]
  · rfl

namespace Memento

/-!
Embedding of the Memento example (same file as src/behavioral/observer.ts in
the packed sources): enum State, class MachineMemento and class StateMachine.

The machine state is the single private field of StateMachine. saveState
returns a memento of the current state and leaves the field untouched, so it
is modelled as returning the memento together with the unchanged state;
restoreState overwrites the field with the memento state, ignoring the
current state; advanceCycle steps INIT to LOAD to PROCESS to FINISH and
FINISH back to INIT.
-/

inductive MachineState where
  | INIT
  | LOAD
  | PROCESS
  | FINISH
deriving DecidableEq

structure MachineMemento where
  state : MachineState

def advanceCycle : MachineState → MachineState
  | .INIT => .LOAD
  | .LOAD => .PROCESS
  | .PROCESS => .FINISH
  | .FINISH => .INIT

def saveState (s : MachineState) : MachineMemento × MachineState :=
  (⟨s⟩, s)

def getState (m : MachineMemento) : MachineState :=
  m.state

def restoreState (current : MachineState) (m : MachineMemento) : MachineState :=
  getState m

end Memento

/-- Claim C10: saveState leaves the machine state unchanged, and restoring a
memento taken in state s after any number of advanceCycle steps returns the
machine to exactly s; in particular restoring an immediately taken memento
leaves the state unchanged. -/
theorem memento_round_trip (s : Memento.MachineState) (n : Nat) :
    (Memento.saveState s).2 = s ∧
    Memento.restoreState (Nat.iterate Memento.advanceCycle n s)
        (Memento.saveState s).1 = s ∧
    Memento.restoreState s (Memento.saveState s).1 = s :=
  ⟨rfl, rfl, rfl⟩

namespace Proto

/-!
Embedding of the Prototype example (src/unnamed/part_006), class Duplicant.

Duplicant.clone runs

  const clone = Object.create(this);
  clone.data = Object.create(this.data);
  return clone;

so object identity and prototype chains matter. The model is a small
JavaScript object heap: objects are identified by their index in the heap
list; each object stores its own properties and an optional prototype
reference; property reads follow the prototype chain (fuel-bounded by the
heap size, which bounds any acyclic chain); property assignment writes an
own property on the target object only.
-/

inductive JSValue where
  | vnum (n : Int)
  | vstr (s : String)
  | vbool (b : Bool)
  | vref (r : Nat)
  | vundefined
deriving DecidableEq

structure JSObject where
  props : List (String × JSValue)
  proto : Option Nat
deriving DecidableEq

abbrev Heap := List JSObject

def getOwn (o : JSObject) (k : String) : Option JSValue :=
  (o.props.find? (fun p => p.1 = k)).map Prod.snd

def setOwn (o : JSObject) (k : String) (v : JSValue) : JSObject :=
  if (o.props.find? (fun p => p.1 = k)).isSome then
    { o with props := o.props.map (fun p => if p.1 = k then (k, v) else p) }
  else
    { o with props := o.props ++ [(k, v)] }

def heapSet : Heap → Nat → String → JSValue → Heap
  | [], _, _, _ => []
  | o :: rest, 0, k, v => setOwn o k v :: rest
  | o :: rest, r + 1, k, v => o :: heapSet rest r k v

def getProp (h : Heap) : Nat → Nat → String → JSValue
  | 0, _, _ => .vundefined
  | fuel + 1, r, k =>
      match h[r]? with
      | none => .vundefined
      | some o =>
          match getOwn o k with
          | some v => v
          | none =>
              match o.proto with
              | some p => getProp h fuel p k
              | none => .vundefined

def lookup (h : Heap) (r : Nat) (k : String) : JSValue :=
  getProp h h.length r k

/-- Property read along a path of keys, dereferencing at each step. -/
def getPath (h : Heap) : JSValue → List String → JSValue
  | v, [] => v
  | .vref r, k :: ks => getPath h (lookup h r k) ks
  | _, _ :: _ => .vundefined

/-- Heap of a freshly constructed Duplicant, parametric in its field values:
object 0 is the bio record, object 1 the data record whose bio property
references object 0, object 2 the Duplicant itself with own properties id
and data (the constructor parameter properties). -/
def dupHeap (idv : Int) (nm : String) (age : Int) (ultra : Bool) : Heap :=
  [ ⟨[("name", .vstr nm), ("age", .vnum age)], none⟩,
    ⟨[("bio", .vref 0), ("ultra", .vbool ultra)], none⟩,
    ⟨[("id", .vnum idv), ("data", .vref 1)], none⟩ ]

/-- Duplicant.clone from the source: allocate Object.create(this), allocate
Object.create(this.data), assign the latter to the own data property of the
former. Returns the new heap and the reference of the clone. The non-vref
branch is unreachable for heaps where the data property of self is an
object reference, as the Duplicant constructor guarantees. -/
def clone (h : Heap) (self : Nat) : Heap × Nat :=
  let cRef := h.length
  let h1 := h ++ [⟨[], some self⟩]
  match lookup h1 self "data" with
  | .vref dRef =>
      let dCloneRef := h1.length
      let h2 := h1 ++ [⟨[], some dRef⟩]
      (heapSet h2 cRef "data" (.vref dCloneRef), cRef)
  | _ => (h1, cRef)

def clonedHeap (idv : Int) (nm : String) (age : Int) (ultra : Bool) : Heap :=
  (clone (dupHeap idv nm age ultra) 2).1

def cloneRef (idv : Int) (nm : String) (age : Int) (ultra : Bool) : Nat :=
  (clone (dupHeap idv nm age ultra) 2).2

end Proto

/-- Claim C8: for every Duplicant, clone does not deep-copy nested data: the
clone's data.bio resolves to the very same object reference as the
original's data.bio, so mutating the name field of that shared bio object
after cloning is observed through the clone, while the scalar id read
through the clone equals the original's id. -/
theorem prototype_clone_shares_nested_bio (idv : Int) (nm : String) (age : Int)
    (ultra : Bool) (newName : String) :
    Proto.getPath (Proto.clonedHeap idv nm age ultra)
        (.vref (Proto.cloneRef idv nm age ultra)) ["data", "bio"]
      = Proto.getPath (Proto.clonedHeap idv nm age ultra) (.vref 2) ["data", "bio"] ∧
    Proto.getPath (Proto.clonedHeap idv nm age ultra)
        (.vref (Proto.cloneRef idv nm age ultra)) ["data", "bio"]
      = .vref 0 ∧
    Proto.getPath
        (Proto.heapSet (Proto.clonedHeap idv nm age ultra) 0 "name" (.vstr newName))
        (.vref (Proto.cloneRef idv nm age ultra)) ["data", "bio", "name"]
      = .vstr newName ∧
    Proto.getPath (Proto.clonedHeap idv nm age ultra)
        (.vref (Proto.cloneRef idv nm age ultra)) ["id"]
      = .vnum idv ∧
    Proto.getPath (Proto.clonedHeap idv nm age ultra) (.vref 2) ["id"]
      = .vnum idv := by
  refine ⟨rfl, rfl, ?_, rfl, rfl⟩
  rfl
